import Mathlib

/-!
Verification of the mcp-swagger tool-synthesis core (src/core/generator.ts,
src/core/parser.ts, src/core/validator.ts) against its specification.

The TypeScript functions are shallowly embedded as executable Lean
definitions.  JavaScript truthiness on optional strings, booleans, arrays
and objects is modelled explicitly (`jsTruthyStr`, `jsTruthyBool`, …);
JavaScript objects used as string-keyed maps are modelled as association
lists with the position-preserving update `setKey` (the semantics of
`obj[k] = v` / `Object.assign`).  The mutually recursive schema walkers
(`extractSchemaProperties`, `flattenNestedObject`, `convertSchemaToZod`)
are given an explicit fuel argument that decreases on every recursive
call, so `= none` for every fuel is exactly non-termination of the
original recursion, and `= some r` for some fuel is exactly termination
with result `r`.
-/

/-- Truthiness of an optional JS string: absent and the empty string are falsy. -/
def jsTruthyStr (o : Option String) : Bool :=
  match o with
  | none => false
  | some s => s != ""

/-- Truthiness of an optional JS boolean: only a present `true` is truthy. -/
def jsTruthyBool (o : Option Bool) : Bool :=
  match o with
  | some true => true
  | _ => false

/-- JS `o || d` for strings: falls back to `d` when `o` is absent or empty. -/
def jsStr (o : Option String) (d : String) : String :=
  match o with
  | none => d
  | some s => if s == "" then d else s

/-- JS `a || b` keeping the option: `a` when truthy, otherwise `b`. -/
def jsOrOpt (a b : Option String) : Option String :=
  if jsTruthyStr a then a else b

/-- JS spread override `{...x with field from y}`: `b`'s value wins when present. -/
def jsOr {α : Type} (a b : Option α) : Option α :=
  match a with
  | some v => some v
  | none => b

/-- JS `obj[k] = v` on an object modelled as an association list: the first
binding of `k` is updated in place, otherwise the binding is appended. -/
def setKey {α : Type} : List (String × α) → String → α → List (String × α)
  | [], k, v => [(k, v)]
  | (k', v') :: t, k, v => if k' == k then (k, v) :: t else (k', v') :: setKey t k v

/-- JS `Object.assign(t, src)`: every binding of `src` is written into `t` in order. -/
def objAssign {α : Type} (t src : List (String × α)) : List (String × α) :=
  src.foldl (fun a e => setKey a e.1 e.2) t

/-- ASCII lower-casing, as JS `toLowerCase` behaves on the ASCII inputs used here. -/
def lowerStr (s : String) : String := String.mk (s.data.map Char.toLower)

/-- ASCII upper-casing, as JS `toUpperCase` behaves on the ASCII inputs used here. -/
def upperStr (s : String) : String := String.mk (s.data.map Char.toUpper)

/-- `sub` is a prefix of the second list. -/
def isPrefixChars : List Char → List Char → Bool
  | [], _ => true
  | _ :: _, [] => false
  | a :: as, b :: bs => a == b && isPrefixChars as bs

/-- `sub` occurs somewhere in the haystack (JS `String.includes`). -/
def containsChars (sub : List Char) : List Char → Bool
  | [] => isPrefixChars sub []
  | c :: t => isPrefixChars sub (c :: t) || containsChars sub t

/-- JS `s.includes(sub)`. -/
def jsIncludes (s sub : String) : Bool := containsChars sub.data s.data

/-- JS `s.startsWith(p)`. -/
def startsWithStr (s p : String) : Bool := isPrefixChars p.data s.data

/-- Drop the first `n` characters of a string. -/
def dropChars (s : String) (n : Nat) : String := String.mk (s.data.drop n)

/-- Character length of a string. -/
def strLen (s : String) : Nat := s.data.length

/-- JS `s.replace(pat, rep)` with a string pattern: only the first
(leftmost) occurrence is replaced. -/
def replaceFirstChars (pat rep : List Char) : List Char → List Char
  | [] => if isPrefixChars pat [] then rep else []
  | c :: t =>
    if isPrefixChars pat (c :: t) then rep ++ List.drop pat.length (c :: t)
    else c :: replaceFirstChars pat rep t

/-- JS `s.replace(pat, rep)` lifted to strings. -/
def replaceFirstStr (s pat rep : String) : String :=
  String.mk (replaceFirstChars pat.data rep.data s.data)

/-- JS global replacement of every underscore by a dot. -/
def underscoreToDot (s : String) : String :=
  String.mk (s.data.map fun c => if c == '_' then '.' else c)

/-- JS global replacement of every dash by an underscore. -/
def dashToUnderscore (s : String) : String :=
  String.mk (s.data.map fun c => if c == '-' then '_' else c)

/-- Splitter for JS `s.split(sep)` with a one-character separator. -/
def splitCharAux (sep : Char) : List Char → List Char → List (List Char)
  | [], acc => [acc.reverse]
  | c :: t, acc => if c == sep then acc.reverse :: splitCharAux sep t [] else splitCharAux sep t (c :: acc)

/-- JS `s.split(sep)` with a one-character separator. -/
def splitChar (sep : Char) (s : String) : List String :=
  (splitCharAux sep s.data []).map String.mk

/-- JS `parts.join(sep)`. -/
def joinWith (sep : String) : List String → String
  | [] => ""
  | [x] => x
  | x :: y :: rest => x ++ sep ++ joinWith sep (y :: rest)

/-- One layer of the recursive OpenAPI `Schema` node (src/types/index.ts),
restricted to the fields the embedded core reads or writes. -/
structure SchemaF (α : Type) where
  type : Option String := none
  format : Option String := none
  items : Option α := none
  properties : Option (List (String × α)) := none
  required : Option (List String) := none
  enum : Option (List String) := none
  ref : Option String := none
  description : Option String := none
  minimum : Option Int := none
  maximum : Option Int := none
  minLength : Option Nat := none
  maxLength : Option Nat := none
  pattern : Option String := none
  allOf : Option (List α) := none
  oneOf : Option (List α) := none
  anyOf : Option (List α) := none

/-- The recursive OpenAPI `Schema` type. -/
inductive Schema : Type where
  | mk : SchemaF Schema → Schema

/-- Unfold one layer of a `Schema`. -/
def Schema.un : Schema → SchemaF Schema
  | .mk f => f

/-- One layer of the property objects built by `convertSchemaToZod`
(the dynamically typed property descriptors of generator.ts). -/
structure FlatPropF (α : Type) where
  type : String := "string"
  description : String := ""
  enum : Option (List String) := none
  format : Option String := none
  minimum : Option Int := none
  maximum : Option Int := none
  minLength : Option Nat := none
  maxLength : Option Nat := none
  pattern : Option String := none
  items : Option α := none
  isPathParam : Option Bool := none
  isQueryParam : Option Bool := none
  isHeaderParam : Option Bool := none
  isBodyParam : Option Bool := none
  isFlattened : Option Bool := none
  originalPath : Option String := none
  parentObject : Option String := none

/-- The recursive flattened-property descriptor. -/
inductive FlatProp : Type where
  | mk : FlatPropF FlatProp → FlatProp

/-- Unfold one layer of a `FlatProp`. -/
def FlatProp.un : FlatProp → FlatPropF FlatProp
  | .mk f => f

/-- A `security` requirement object: scheme name to scope list. -/
abbrev SecurityRequirement := List (String × List String)

/-- `Parameter` of src/types/index.ts (plus the dynamic `type` field the
validator probes on Swagger 2.0 style parameters). -/
structure Parameter where
  name : String
  «in» : String
  required : Option Bool := none
  schema : Option Schema := none
  description : Option String := none
  type : Option String := none

/-- One media-type entry of a request body's `content` map. -/
structure MediaContent where
  schema : Option Schema := none

/-- `RequestBody` of src/types/index.ts. -/
structure RequestBody where
  description : Option String := none
  content : List (String × MediaContent) := []
  required : Option Bool := none

/-- `Response` of src/types/index.ts, restricted to the consulted field. -/
structure ResponseObj where
  description : Option String := none

/-- `SecurityScheme` of src/types/index.ts. -/
structure SecurityScheme where
  type : String
  description : Option String := none
  name : Option String := none
  «in» : Option String := none
  scheme : Option String := none
  flows : Option String := none
  openIdConnectUrl : Option String := none

/-- `ApiEndpoint` of src/types/index.ts. -/
structure ApiEndpoint where
  path : String
  method : String
  operationId : Option String := none
  summary : Option String := none
  description : Option String := none
  tags : Option (List String) := none
  parameters : List Parameter := []
  requestBody : Option RequestBody := none
  responses : Option (List (String × ResponseObj)) := none
  security : Option (List SecurityRequirement) := none

/-- The `info` object of a specification document. -/
structure Info where
  title : Option String := none
  version : Option String := none
  description : Option String := none

/-- One entry of the `servers` array. -/
structure Server where
  url : String
  description : Option String := none

/-- `ParsedApiSpec` of src/types/index.ts: the normalizer's output. -/
structure ParsedApiSpec where
  info : Option Info := none
  servers : Option (List Server) := none
  endpoints : List ApiEndpoint := []
  schemas : List (String × Schema) := []
  securitySchemes : List (String × SecurityScheme) := []
  globalSecurity : Option (List SecurityRequirement) := none

/-- One operation object under a path item of the raw document. -/
structure Operation where
  operationId : Option String := none
  summary : Option String := none
  description : Option String := none
  tags : Option (List String) := none
  parameters : Option (List Parameter) := none
  requestBody : Option RequestBody := none
  responses : Option (List (String × ResponseObj)) := none
  security : Option (List SecurityRequirement) := none

/-- A path item: method name to operation. -/
abbrev PathItem := List (String × Operation)

/-- The `components` section of an OpenAPI 3.x document. -/
structure Components where
  schemas : Option (List (String × Schema)) := none
  securitySchemes : Option (List (String × SecurityScheme)) := none

/-- `SwaggerSpec` of src/types/index.ts, with the dynamically probed
Swagger 2.0 fields (`host`, `basePath`, `schemes`, `definitions`,
`securityDefinitions`). -/
structure SwaggerSpec where
  openapi : Option String := none
  swagger : Option String := none
  info : Option Info := none
  servers : Option (List Server) := none
  paths : Option (List (String × PathItem)) := none
  components : Option Components := none
  security : Option (List SecurityRequirement) := none
  host : Option String := none
  basePath : Option String := none
  schemes : Option (List String) := none
  definitions : Option (List (String × Schema)) := none
  securityDefinitions : Option (List (String × SecurityScheme)) := none

/-- `AuthenticationSpec` of src/types/index.ts. -/
structure AuthenticationSpec where
  type : String
  location : Option String := none
  name : Option String := none
  value : Option String := none
  envVariable : Option String := none

/-- The per-header metadata records built by `generateMcpTool` ("Phase 3"). -/
structure HeaderParamMeta where
  name : String
  paramName : String
  required : Bool
  description : String

/-- The `inputSchema` of an MCP tool. -/
structure InputSchema where
  type : String
  properties : List (String × FlatProp)
  required : Option (List String) := none

/-- `ResponseHandlingSpec` of src/types/index.ts. -/
structure ResponseHandlingSpec where
  successCodes : List Nat
  responseType : String

/-- `ErrorHandlingSpec` of src/types/index.ts. -/
structure ErrorHandlingSpec where
  retryCount : Nat
  timeoutMs : Nat
  errorCodes : List (Nat × String)

/-- The tool descriptor built by `generateMcpTool`.  A field that the
TypeScript object literal includes only conditionally (`...(x && {x})`)
is an `Option`; `isSome` is key presence. -/
structure McpToolSpec where
  name : String
  description : String
  inputSchema : InputSchema
  method : String
  path : String
  baseUrl : String
  authentication : Option AuthenticationSpec := none
  headerParams : Option (List HeaderParamMeta) := none
  responseHandling : ResponseHandlingSpec
  errorHandling : ErrorHandlingSpec

/-- The object keys actually present on a synthesized tool descriptor,
mirroring the conditional spreads of the object literal in
`generateMcpTool` (generator.ts lines 112-136). -/
def McpToolSpec.keys (t : McpToolSpec) : List String :=
  ["name", "description", "inputSchema", "method", "path", "baseUrl"]
    ++ (if t.authentication.isSome then ["authentication"] else [])
    ++ (if t.headerParams.isSome then ["headerParams"] else [])
    ++ ["responseHandling", "errorHandling"]

/-- The fields the data model (spec section 3) names for `McpToolSpec`. -/
def mcpSpecFieldNames : List String :=
  ["name", "description", "inputSchema", "method", "path", "baseUrl",
   "authentication", "responseHandling", "errorHandling"]

/-- The validation report of src/core/validator.ts. -/
structure ValidationResult where
  isValid : Bool
  errors : List String
  warnings : List String
  suggestions : List String

namespace Generator

/-- `resolveSchemaReference` (generator.ts 518-532): strip the standard
prefix and look up the registry; anything else yields `none`. -/
def resolveSchemaReference (ref : String) (spec : ParsedApiSpec) : Option Schema :=
  if startsWithStr ref "#/components/schemas/" then
    List.lookup (dropChars ref (strLen "#/components/schemas/")) spec.schemas
  else if startsWithStr ref "#/definitions/" then
    List.lookup (dropChars ref (strLen "#/definitions/")) spec.schemas
  else none

/-- The `resolveSchemaReference(x.$ref, spec) || x` pattern used for allOf
members, oneOf heads and nested properties. -/
def resolvePropSchema (spec : ParsedApiSpec) (p : Schema) : Schema :=
  if jsTruthyStr p.un.ref then (resolveSchemaReference (p.un.ref.getD "") spec).getD p else p

/-- `mapOpenApiTypeToZod` (generator.ts 537-551). -/
def mapOpenApiTypeToZod (t : String) : String :=
  if t == "integer" || t == "number" then "number"
  else if t == "boolean" then "boolean"
  else if t == "array" then "array"
  else if t == "object" then "object"
  else "string"

/-- One iteration of the allOf / anyOf merge loop of
`resolveSchemaComposition` (generator.ts 394-412 and 431-448): resolve the
member's own reference, merge its properties over the accumulator, append
its required list, and inherit a type when the accumulator has none. -/
def allOfStep (spec : ParsedApiSpec) (acc : Schema) (m : Schema) : Schema :=
  let rm := resolvePropSchema spec m
  let newProps := match rm.un.properties with
    | some ps => some (objAssign (acc.un.properties.getD []) ps)
    | none => acc.un.properties
  let newReq := match rm.un.required with
    | some r => some (acc.un.required.getD [] ++ r)
    | none => acc.un.required
  let newType := if !jsTruthyStr acc.un.type && jsTruthyStr rm.un.type then rm.un.type
    else acc.un.type
  Schema.mk { acc.un with properties := newProps, required := newReq, type := newType }

/-- The JS object spread `{...a, ...b}` on two schema nodes: a field
present on `b` overrides the one of `a`. -/
def spreadMerge (a b : Schema) : Schema :=
  Schema.mk {
    type := jsOr b.un.type a.un.type,
    format := jsOr b.un.format a.un.format,
    items := jsOr b.un.items a.un.items,
    properties := jsOr b.un.properties a.un.properties,
    required := jsOr b.un.required a.un.required,
    enum := jsOr b.un.enum a.un.enum,
    ref := jsOr b.un.ref a.un.ref,
    description := jsOr b.un.description a.un.description,
    minimum := jsOr b.un.minimum a.un.minimum,
    maximum := jsOr b.un.maximum a.un.maximum,
    minLength := jsOr b.un.minLength a.un.minLength,
    maxLength := jsOr b.un.maxLength a.un.maxLength,
    pattern := jsOr b.un.pattern a.un.pattern,
    allOf := jsOr b.un.allOf a.un.allOf,
    oneOf := jsOr b.un.oneOf a.un.oneOf,
    anyOf := jsOr b.un.anyOf a.un.anyOf }

/-- `resolveSchemaComposition` (generator.ts 386-452).  When `allOf` is
present the copy's properties and required list are reset and every member
merged in; a non-empty `oneOf` spreads its first (reference-resolved)
member over the accumulator; `anyOf` resets and merges exactly like
`allOf`. -/
def resolveSchemaComposition (s : Schema) (spec : ParsedApiSpec) : Schema :=
  let r1 := match s.un.allOf with
    | some l => l.foldl (allOfStep spec) (Schema.mk { s.un with properties := some [], required := some [] })
    | none => s
  let r2 := match s.un.oneOf with
    | some (f :: _) => spreadMerge r1 (resolvePropSchema spec f)
    | _ => r1
  let r3 := match s.un.anyOf with
    | some l => l.foldl (allOfStep spec) (Schema.mk { r2.un with properties := some [], required := some [] })
    | none => r2
  r3

/-- The type inherited by an allOf / anyOf merge: the type of the first
member that declares a truthy one, after resolving the member's own
reference. -/
def firstTruthyType (spec : ParsedApiSpec) (l : List Schema) : Option String :=
  l.findSome? fun m =>
    let rm := resolvePropSchema spec m
    if jsTruthyStr rm.un.type then rm.un.type else none

/-- `shouldFlattenObject` (generator.ts 457-465): any object with a
non-empty property map is flattened. -/
def shouldFlattenObject (s : Schema) : Bool :=
  match s.un.properties with
  | none => false
  | some ps => !ps.isEmpty

/-- `convertSchemaToZod` (generator.ts 271-317), fuel-indexed for the
recursion into array item schemas. -/
def convertSchemaToZod : Nat → Option Schema → Option String → Option String → Option FlatProp
  | 0, _, _, _ => none
  | _ + 1, none, _, paramDescription =>
    some (FlatProp.mk { type := "string", description := jsStr paramDescription "Parameter value" })
  | fuel + 1, some s, _paramName, paramDescription =>
    let base : FlatPropF FlatProp :=
      { type := mapOpenApiTypeToZod (jsStr s.un.type "string"),
        description := jsStr (jsOrOpt s.un.description paramDescription) "Parameter value" }
    let base := match s.un.enum with
      | some e => { base with enum := some e }
      | none => base
    let base := if jsTruthyStr s.un.format then { base with format := s.un.format } else base
    let base := match s.un.minimum with
      | some m => { base with minimum := some m }
      | none => base
    let base := match s.un.maximum with
      | some m => { base with maximum := some m }
      | none => base
    let base := match s.un.minLength with
      | some m => { base with minLength := some m }
      | none => base
    let base := match s.un.maxLength with
      | some m => { base with maxLength := some m }
      | none => base
    let base := if jsTruthyStr s.un.pattern then { base with pattern := s.un.pattern } else base
    match s.un.items with
    | some it =>
      if s.un.type == some "array" then
        match convertSchemaToZod fuel (some it) none none with
        | none => none
        | some ip => some (FlatProp.mk { base with items := some ip })
      else some (FlatProp.mk base)
    | none => some (FlatProp.mk base)

/-- The flattened parameter name for a property (generator.ts 484). -/
def flatName (parent pfx pn : String) : String :=
  if pfx != "" then pfx ++ "_" ++ pn else parent ++ "_" ++ pn

/-- The `originalPath` recorded on a flattened leaf (generator.ts 500):
for nested levels the accumulated prefix is first stripped of one
occurrence of `parent ++ "_"` and every remaining underscore becomes a
dot. -/
def flatOriginalPath (parent pfx pn : String) : String :=
  if pfx != "" then
    parent ++ "." ++ underscoreToDot (replaceFirstStr pfx (parent ++ "_") "") ++ "." ++ pn
  else parent ++ "." ++ pn

/-- The condition under which `flattenNestedObject` recurses into a
property (generator.ts 492): declared type `object` and a present
`properties` key. -/
def objCase (s : Schema) : Bool :=
  (s.un.type == some "object") && s.un.properties.isSome

/-- The property loop of `flattenNestedObject` (generator.ts 483-510).
`recur` is the recursive call at one fuel less; `conv` is
`convertSchemaToZod` at one fuel less. -/
def flattenLoop (spec : ParsedApiSpec) (parent pfx : String) (reqNames : List String)
    (recur : Schema → String → Option (List (String × FlatProp) × List String))
    (conv : Schema → String → Option FlatProp) :
    List (String × Schema) → List (String × FlatProp) → List String →
    Option (List (String × FlatProp) × List String)
  | [], accP, accR => some (accP, accR)
  | (pn, ps) :: rest, accP, accR =>
    let fname := flatName parent pfx pn
    let rs := resolvePropSchema spec ps
    if objCase rs then
      match recur rs fname with
      | none => none
      | some (np, nr) =>
        flattenLoop spec parent pfx reqNames recur conv rest (objAssign accP np) (accR ++ nr)
    else
      match conv rs fname with
      | none => none
      | some fp0 =>
        let fp := FlatProp.mk { fp0.un with
          originalPath := some (flatOriginalPath parent pfx pn),
          parentObject := some parent,
          isFlattened := some true }
        flattenLoop spec parent pfx reqNames recur conv rest (setKey accP fname fp)
          (accR ++ (if pn ∈ reqNames then [fname] else []))

/-- `flattenNestedObject` (generator.ts 470-513), fuel-indexed: the fuel
decreases on every recursive call, so a `none` result for every fuel is
exactly the divergence of the original recursion. -/
def flattenNestedObject : Nat → Schema → ParsedApiSpec → String → String →
    Option (List (String × FlatProp) × List String)
  | 0, _, _, _, _ => none
  | fuel + 1, s, spec, parent, pfx =>
    match s.un.properties with
    | none => some ([], [])
    | some ps =>
      flattenLoop spec parent pfx (s.un.required.getD [])
        (fun t nm => flattenNestedObject fuel t spec parent nm)
        (fun t nm => convertSchemaToZod fuel (some t) (some nm) t.un.description)
        ps [] []

/-- The property loop of `extractSchemaProperties` (generator.ts 338-372).
`flat` is `flattenNestedObject` at one fuel less with the default empty
prefix; `conv` is `convertSchemaToZod` at one fuel less. -/
def extractLoop (spec : ParsedApiSpec)
    (flat : Schema → String → Option (List (String × FlatProp) × List String))
    (conv : Option Schema → Option String → Option String → Option FlatProp) :
    List (String × Schema) → List (String × FlatProp) → List String →
    Option (List (String × FlatProp) × List String)
  | [], accP, accR => some (accP, accR)
  | (pn, ps) :: rest, accP, accR =>
    if jsTruthyStr ps.un.ref then
      match resolveSchemaReference (ps.un.ref.getD "") spec with
      | some n =>
        if shouldFlattenObject n then
          match flat n pn with
          | none => none
          | some (fp, fr) => extractLoop spec flat conv rest (objAssign accP fp) (accR ++ fr)
        else
          match conv (some n) (some pn) n.un.description with
          | none => none
          | some cp => extractLoop spec flat conv rest (setKey accP pn cp) accR
      | none =>
        match conv (some ps) (some pn) ps.un.description with
        | none => none
        | some cp => extractLoop spec flat conv rest (setKey accP pn cp) accR
    else if (ps.un.type == some "object") && shouldFlattenObject ps then
      match flat ps pn with
      | none => none
      | some (fp, fr) => extractLoop spec flat conv rest (objAssign accP fp) (accR ++ fr)
    else
      let comp := resolveSchemaComposition ps spec
      if (comp.un.type == some "object") && shouldFlattenObject comp then
        match flat comp pn with
        | none => none
        | some (fp, fr) => extractLoop spec flat conv rest (objAssign accP fp) (accR ++ fr)
      else
        match conv (some comp) (some pn) comp.un.description with
        | none => none
        | some cp => extractLoop spec flat conv rest (setKey accP pn cp) accR

/-- The body of `extractSchemaProperties` after the top-level reference
short-circuit (generator.ts 334-380): resolve composition, walk the
properties, then append the composition-resolved schema's own required
list verbatim. -/
def extractCore (fuel : Nat) (s : Schema) (spec : ParsedApiSpec) :
    Option (List (String × FlatProp) × List String) :=
  let rs := resolveSchemaComposition s spec
  let body := match rs.un.properties with
    | none => some (([] : List (String × FlatProp)), ([] : List String))
    | some ps =>
      extractLoop spec (fun t nm => flattenNestedObject fuel t spec nm "")
        (fun a b c => convertSchemaToZod fuel a b c) ps [] []
  body.map fun pr => (pr.1, pr.2 ++ rs.un.required.getD [])

/-- `extractSchemaProperties` (generator.ts 322-381), fuel-indexed. -/
def extractSchemaProperties : Nat → Schema → ParsedApiSpec →
    Option (List (String × FlatProp) × List String)
  | 0, _, _ => none
  | fuel + 1, s, spec =>
    if jsTruthyStr s.un.ref then
      match resolveSchemaReference (s.un.ref.getD "") spec with
      | some r => extractSchemaProperties fuel r spec
      | none => extractCore fuel s spec
    else extractCore fuel s spec

/-- The path-parameter loop of `generateInputSchema` (generator.ts
190-197): path parameters are always pushed onto `required`. -/
def pathParamLoop (conv : Option Schema → Option String → Option String → Option FlatProp) :
    List Parameter → List (String × FlatProp) → List String →
    Option (List (String × FlatProp) × List String)
  | [], accP, accR => some (accP, accR)
  | p :: rest, accP, accR =>
    if p.«in» == "path" then
      match conv p.schema (some p.name) p.description with
      | none => none
      | some fp =>
        pathParamLoop conv rest
          (setKey accP p.name (FlatProp.mk { fp.un with isPathParam := some true }))
          (accR ++ [p.name])
    else pathParamLoop conv rest accP accR

/-- The query-parameter loop of `generateInputSchema` (generator.ts
200-209). -/
def queryParamLoop (conv : Option Schema → Option String → Option String → Option FlatProp) :
    List Parameter → List (String × FlatProp) → List String →
    Option (List (String × FlatProp) × List String)
  | [], accP, accR => some (accP, accR)
  | p :: rest, accP, accR =>
    if p.«in» == "query" then
      match conv p.schema (some p.name) p.description with
      | none => none
      | some fp =>
        queryParamLoop conv rest
          (setKey accP p.name (FlatProp.mk { fp.un with isQueryParam := some true }))
          (accR ++ (if jsTruthyBool p.required then [p.name] else []))
    else queryParamLoop conv rest accP accR

/-- A header parameter treated as a server-computed signature and skipped
(generator.ts 215-216). -/
def isSignatureHeader (nm : String) : Bool :=
  jsIncludes (lowerStr nm) "signature" || jsIncludes (lowerStr nm) "x-payload-signature"

/-- The header-parameter loop of `generateInputSchema` (generator.ts
212-227). -/
def headerParamLoop (conv : Option Schema → Option String → Option String → Option FlatProp) :
    List Parameter → List (String × FlatProp) → List String →
    Option (List (String × FlatProp) × List String)
  | [], accP, accR => some (accP, accR)
  | p :: rest, accP, accR =>
    if p.«in» == "header" then
      if isSignatureHeader p.name then headerParamLoop conv rest accP accR
      else
        match conv p.schema (some p.name) p.description with
        | none => none
        | some fp =>
          headerParamLoop conv rest
            (setKey accP p.name (FlatProp.mk { fp.un with isHeaderParam := some true }))
            (accR ++ (if jsTruthyBool p.required then [p.name] else []))
    else headerParamLoop conv rest accP accR

/-- Marking every extracted body property with `isBodyParam` and writing
it into the property map (generator.ts 236-239 and 251-254). -/
def addBodyProps : List (String × FlatProp) → List (String × FlatProp) → List (String × FlatProp)
  | [], accP => accP
  | (n, p) :: rest, accP =>
    addBodyProps rest (setKey accP n (FlatProp.mk { p.un with isBodyParam := some true }))

/-- The Swagger 2.0 body-parameter loop of `generateInputSchema`
(generator.ts 247-259). -/
def bodyParamLoop (ext : Schema → Option (List (String × FlatProp) × List String)) :
    List Parameter → List (String × FlatProp) → List String →
    Option (List (String × FlatProp) × List String)
  | [], accP, accR => some (accP, accR)
  | p :: rest, accP, accR =>
    if p.«in» == "body" && p.schema.isSome then
      match ext (p.schema.getD (Schema.mk {})) with
      | none => none
      | some (bp, br) =>
        bodyParamLoop ext rest (addBodyProps bp accP)
          (accR ++ (if jsTruthyBool p.required then br else []))
    else bodyParamLoop ext rest accP accR

/-- `generateInputSchema` (generator.ts 185-266). -/
def generateInputSchema (fuel : Nat) (endpoint : ApiEndpoint) (spec : ParsedApiSpec) :
    Option InputSchema :=
  let conv := convertSchemaToZod fuel
  match pathParamLoop conv endpoint.parameters [] [] with
  | none => none
  | some (p1, r1) =>
    match queryParamLoop conv endpoint.parameters p1 r1 with
    | none => none
    | some (p2, r2) =>
      match headerParamLoop conv endpoint.parameters p2 r2 with
      | none => none
      | some (p3, r3) =>
        let afterBody :=
          match endpoint.requestBody with
          | some rb =>
            match List.lookup "application/json" rb.content with
            | some jc =>
              match jc.schema with
              | some sch =>
                match extractSchemaProperties fuel sch spec with
                | none => none
                | some (bp, br) =>
                  some (addBodyProps bp p3, r3 ++ (if jsTruthyBool rb.required then br else []))
              | none => some (p3, r3)
            | none => some (p3, r3)
          | none => some (p3, r3)
        match afterBody with
        | none => none
        | some (p4, r4) =>
          match bodyParamLoop (fun sch => extractSchemaProperties fuel sch spec)
              endpoint.parameters p4 r4 with
          | none => none
          | some (p5, r5) =>
            some { type := "object", properties := p5,
                   required := if r5.isEmpty then none else some r5 }

/-- `camelToSnakeCase` (generator.ts 712-714): each upper-case letter
becomes an underscore plus its lower case, then one leading underscore is
stripped. -/
def camelToSnakeCase (str : String) : String :=
  let mapped := str.data.foldr (fun c acc => (if c.isUpper then ['_', c.toLower] else [c]) ++ acc) []
  String.mk (match mapped with
    | '_' :: t => t
    | l => l)

/-- `generateToolName` (generator.ts 147-161). -/
def generateToolName (endpoint : ApiEndpoint) : String :=
  if jsTruthyStr endpoint.operationId then camelToSnakeCase (endpoint.operationId.getD "")
  else
    let method := lowerStr endpoint.method
    let pathParts := ((splitChar '/' endpoint.path).filter fun part =>
        part != "" && !startsWithStr part "\x7b").map fun part =>
      String.mk (part.data.filter fun c => c.isAlpha || c.isDigit)
    method ++ "_" ++ joinWith "_" pathParts

/-- `getActionFromMethod` (generator.ts 716-725). -/
def getActionFromMethod (m : String) : String :=
  let ml := lowerStr m
  if ml == "get" then "Retrieve"
  else if ml == "post" then "Create"
  else if ml == "put" then "Update"
  else if ml == "patch" then "Modify"
  else if ml == "delete" then "Delete"
  else "Process"

/-- `getResourceFromPath` (generator.ts 727-730). -/
def getResourceFromPath (p : String) : String :=
  let parts := (splitChar '/' p).filter fun part => part != "" && !startsWithStr part "\x7b"
  jsStr parts.getLast? "resource"

/-- `generateToolDescription` (generator.ts 166-180). -/
def generateToolDescription (endpoint : ApiEndpoint) : String :=
  if jsTruthyStr endpoint.description then endpoint.description.getD ""
  else if jsTruthyStr endpoint.summary then endpoint.summary.getD ""
  else getActionFromMethod endpoint.method ++ " " ++ getResourceFromPath endpoint.path

/-- The fixed path substrings recognized as authentication endpoints
(generator.ts 24-32). -/
def authPatterns : List String :=
  ["/auth/login", "/auth/token", "/token", "/login", "/oauth/token",
   "/auth/oauth/token", "/v2/auth/login"]

/-- `isAuthenticationEndpoint` (generator.ts 23-52). -/
def isAuthenticationEndpoint (endpoint : ApiEndpoint) : Bool :=
  let pathMatches := authPatterns.any fun pat => jsIncludes (lowerStr endpoint.path) (lowerStr pat)
  let operationIdMatches :=
    if jsTruthyStr endpoint.operationId then
      ["token", "auth", "login", "authenticate"].any fun kw =>
        jsIncludes (lowerStr (endpoint.operationId.getD "")) kw
    else false
  let ds := jsOrOpt endpoint.description endpoint.summary
  let descriptionMatches :=
    if jsTruthyStr ds then
      ["access token", "authentication", "login", "auth"].any fun kw =>
        jsIncludes (lowerStr (jsStr ds "")) kw
    else false
  pathMatches || operationIdMatches || descriptionMatches

/-- `getBaseUrl` of the generator (generator.ts 556-561): first server URL
or the empty string — no Swagger 2.0 fallback. -/
def getBaseUrl (spec : ParsedApiSpec) : String :=
  match spec.servers with
  | some (s0 :: _) => s0.url
  | _ => ""

/-- `createAuthSpec` (generator.ts 583-619). -/
def createAuthSpec (securityReq : SecurityRequirement) (spec : ParsedApiSpec) :
    Option AuthenticationSpec :=
  let schemeNameOpt := securityReq.head?.map Prod.fst
  if !jsTruthyStr schemeNameOpt then none
  else
    let schemeName := schemeNameOpt.getD ""
    match List.lookup schemeName spec.securitySchemes with
    | none => none
    | some scheme =>
      if scheme.type == "apiKey" then
        some { type := "apiKey", location := scheme.«in»,
               name := some (jsStr scheme.name "apikey"),
               envVariable := some (upperStr schemeName ++ "_API_KEY") }
      else if scheme.type == "http" then
        if scheme.scheme == some "bearer" then
          some { type := "bearer", envVariable := some (upperStr schemeName ++ "_TOKEN") }
        else if scheme.scheme == some "basic" then
          some { type := "basic", envVariable := some (upperStr schemeName ++ "_CREDENTIALS") }
        else none
      else if scheme.type == "oauth2" then
        some { type := "oauth2", envVariable := some (upperStr schemeName ++ "_ACCESS_TOKEN") }
      else none

/-- `generateAuthenticationSpec` (generator.ts 566-578). -/
def generateAuthenticationSpec (endpoint : ApiEndpoint) (spec : ParsedApiSpec) :
    Option AuthenticationSpec :=
  match endpoint.security with
  | some (r :: _) => createAuthSpec r spec
  | _ =>
    match spec.globalSecurity with
    | some (r :: _) => createAuthSpec r spec
    | _ => none

/-- `generateMcpTool` (generator.ts 85-142).  A `none` result models the
caught exception path that drops the endpoint. -/
def generateMcpTool (fuel : Nat) (endpoint : ApiEndpoint) (spec : ParsedApiSpec) :
    Option McpToolSpec :=
  match generateInputSchema fuel endpoint spec with
  | none => none
  | some inputSchema =>
    let headerParams := (endpoint.parameters.filter fun p => p.«in» == "header").map fun p =>
      ({ name := p.name, paramName := dashToUnderscore p.name,
         required := jsTruthyBool p.required,
         description := jsStr p.description ("Header parameter: " ++ p.name) } : HeaderParamMeta)
    some {
      name := generateToolName endpoint,
      description := generateToolDescription endpoint,
      inputSchema := inputSchema,
      method := endpoint.method,
      path := endpoint.path,
      baseUrl := getBaseUrl spec,
      authentication := generateAuthenticationSpec endpoint spec,
      headerParams := if headerParams.isEmpty then none else some headerParams,
      responseHandling := { successCodes := [200, 201, 204], responseType := "json" },
      errorHandling := { retryCount := 3, timeoutMs := 30000,
                         errorCodes := [(400, "Bad Request"), (401, "Unauthorized"),
                                        (403, "Forbidden"), (404, "Not Found"),
                                        (500, "Internal Server Error")] } }

/-- `generate` (generator.ts 57-80): authentication endpoints are skipped
and failed syntheses dropped. -/
def generate (fuel : Nat) (spec : ParsedApiSpec) : List McpToolSpec :=
  spec.endpoints.filterMap fun endpoint =>
    if isAuthenticationEndpoint endpoint then none
    else generateMcpTool fuel endpoint spec

end Generator

namespace Parser

/-- `isValidHttpMethod` (parser.ts 150-153). -/
def isValidHttpMethod (m : String) : Bool :=
  ["get", "post", "put", "delete", "patch", "head", "options"].contains (lowerStr m)

/-- One `ApiEndpoint` built by `convertToInternalFormat` (parser.ts
118-129) with its conditional spreads. -/
def mkEndpoint (path method : String) (op : Operation) : ApiEndpoint :=
  { path := path,
    method := upperStr method,
    operationId := if jsTruthyStr op.operationId then op.operationId else none,
    summary := if jsTruthyStr op.summary then op.summary else none,
    description := if jsTruthyStr op.description then op.description else none,
    tags := op.tags,
    parameters := op.parameters.getD [],
    requestBody := op.requestBody,
    responses := op.responses,
    security := op.security }

/-- `convertToInternalFormat` (parser.ts 111-145).  Iterating the paths of
a document without a `paths` object throws in the original, modelled as
`none`. -/
def convertToInternalFormat (spec : SwaggerSpec) : Option ParsedApiSpec :=
  match spec.paths with
  | none => none
  | some pathsList =>
    some {
      info := spec.info,
      servers := spec.servers,
      endpoints := (pathsList.map fun pr =>
        pr.2.filterMap fun mo =>
          if isValidHttpMethod mo.1 then some (mkEndpoint pr.1 mo.1 mo.2) else none).flatten,
      schemas := (match spec.components with
        | some c => match c.schemas with
          | some s => s
          | none => spec.definitions.getD []
        | none => spec.definitions.getD []),
      securitySchemes := (match spec.components with
        | some c => match c.securitySchemes with
          | some s => s
          | none => spec.securityDefinitions.getD []
        | none => spec.securityDefinitions.getD []),
      globalSecurity := spec.security }

/-- `getBaseUrl` of the parser (parser.ts 206-219): first server URL, then
the Swagger 2.0 `scheme://host/basePath` fallback, else empty. -/
def getBaseUrl (spec : SwaggerSpec) : String :=
  match spec.servers with
  | some (s0 :: _) => s0.url
  | _ =>
    match spec.host, spec.basePath with
    | some h, some bp =>
      let protocol := if (spec.schemes.getD []).contains "https" then "https" else "http"
      protocol ++ "://" ++ h ++ jsStr (some bp) ""
    | _, _ => ""

end Parser

namespace Validator

/-- `validateParameters` (validator.ts 137-171): the accumulated `seen`
list models the JS `Set` of `name-in` keys. -/
def validateParametersAux (operationKey : String) : List Parameter → List String → List String
  | [], _ => []
  | p :: rest, seen =>
    if p.name == "" then
      ("Parameter missing name in " ++ operationKey) :: validateParametersAux operationKey rest seen
    else
      let e1 := if p.«in» == "" then
          ["Parameter \x27" ++ p.name ++ "\x27 missing \x27in\x27 field in " ++ operationKey]
        else []
      let e2 := if p.schema.isNone && !jsTruthyStr p.type then
          ["Parameter \x27" ++ p.name ++ "\x27 missing schema/type in " ++ operationKey]
        else []
      let paramKey := p.name ++ "-" ++ p.«in»
      let e3 := if seen.contains paramKey then
          ["Duplicate parameter \x27" ++ p.name ++ "\x27 in \x27" ++ p.«in» ++ "\x27 for " ++ operationKey]
        else []
      let e4 := if p.«in» == "path" && !jsTruthyBool p.required then
          ["Path parameter \x27" ++ p.name ++ "\x27 must be required in " ++ operationKey]
        else []
      e1 ++ e2 ++ e3 ++ e4 ++ validateParametersAux operationKey rest (paramKey :: seen)

/-- `validateOperation` (validator.ts 93-132), returning
(errors, warnings, suggestions). -/
def validateOperation (path method : String) (op : Operation) :
    List String × List String × List String :=
  let operationKey := upperStr method ++ " " ++ path
  let errs1 := if op.responses.isNone then ["Missing responses for " ++ operationKey] else []
  let suggs1 := if !jsTruthyStr op.operationId then
      ["Consider adding operationId for " ++ operationKey]
    else []
  let warns1 := if !jsTruthyStr op.summary && !jsTruthyStr op.description then
      ["Missing summary and description for " ++ operationKey]
    else []
  let errsP := match op.parameters with
    | some ps => validateParametersAux operationKey ps []
    | none => []
  let warns2 := if ["post", "put", "patch"].contains (lowerStr method) && op.requestBody.isNone then
      [operationKey ++ " might need a request body"]
    else []
  let suggs2 := if (match op.tags with
      | none => true
      | some t => t.isEmpty) then
      ["Consider adding tags for " ++ operationKey ++ " for better organization"]
    else []
  (errs1 ++ errsP, warns1 ++ warns2, suggs1 ++ suggs2)

/-- Pointwise concatenation of (errors, warnings, suggestions) triples. -/
def cat3 (a b : List String × List String × List String) :
    List String × List String × List String :=
  (a.1 ++ b.1, a.2.1 ++ b.2.1, a.2.2 ++ b.2.2)

/-- The per-method loop of `validatePaths` (validator.ts 81-86). -/
def validateMethodsAux (path : String) : List (String × Operation) →
    List String × List String × List String
  | [] => ([], [], [])
  | (m, op) :: rest =>
    cat3 (if Parser.isValidHttpMethod m then validateOperation path m op else ([], [], []))
      (validateMethodsAux path rest)

/-- `validatePaths` (validator.ts 70-88). -/
def validatePathsAux : List (String × PathItem) → List String × List String × List String
  | [] => ([], [], [])
  | (path, item) :: rest =>
    cat3 ((if !startsWithStr path "/" then ["Path must start with \x27/\x27: " ++ path] else []),
          [], [])
      (cat3 (validateMethodsAux path item) (validatePathsAux rest))

/-- `validateSecuritySchemes` (validator.ts 176-212), returning
(errors, warnings). -/
def validateSecuritySchemesAux : List (String × SecurityScheme) → List String × List String
  | [] => ([], [])
  | (nm, scheme) :: rest =>
    let r := validateSecuritySchemesAux rest
    if scheme.type == "" then
      (("Security scheme \x27" ++ nm ++ "\x27 missing type") :: r.1, r.2)
    else if scheme.type == "apiKey" then
      ((if !jsTruthyStr scheme.name || !jsTruthyStr scheme.«in» then
          ["API key security scheme \x27" ++ nm ++ "\x27 missing name or in field"]
        else []) ++ r.1, r.2)
    else if scheme.type == "http" then
      ((if !jsTruthyStr scheme.scheme then
          ["HTTP security scheme \x27" ++ nm ++ "\x27 missing scheme field"]
        else []) ++ r.1, r.2)
    else if scheme.type == "oauth2" then
      ((if scheme.flows.isNone then
          ["OAuth2 security scheme \x27" ++ nm ++ "\x27 missing flows"]
        else []) ++ r.1, r.2)
    else if scheme.type == "openIdConnect" then
      ((if !jsTruthyStr scheme.openIdConnectUrl then
          ["OpenID Connect security scheme \x27" ++ nm ++ "\x27 missing openIdConnectUrl"]
        else []) ++ r.1, r.2)
    else
      (r.1, ("Unknown security scheme type \x27" ++ scheme.type ++ "\x27 for \x27" ++ nm ++ "\x27") :: r.2)

/-- `validate` (validator.ts 11-65). -/
def validate (spec : SwaggerSpec) : ValidationResult :=
  let infoErrs := match spec.info with
    | none => ["Missing required field: info"]
    | some i =>
      (if !jsTruthyStr i.title then ["Missing required field: info.title"] else [])
        ++ (if !jsTruthyStr i.version then ["Missing required field: info.version"] else [])
  let pathsRes := match spec.paths with
    | none => ((["No paths defined in specification"] : List String), ([] : List String), ([] : List String))
    | some ps =>
      if ps.isEmpty then (["No paths defined in specification"], [], [])
      else validatePathsAux ps
  let verErrs := if !jsTruthyStr spec.openapi && !jsTruthyStr spec.swagger then
      ["Missing OpenAPI or Swagger version field"]
    else []
  let serverWarns := if jsTruthyStr spec.openapi && (match spec.servers with
      | none => true
      | some l => l.isEmpty) then
      ["No servers defined - consider adding server URLs"]
    else []
  let ssRes := match spec.components with
    | some c =>
      (match c.securitySchemes with
       | some ss => validateSecuritySchemesAux ss
       | none => (([] : List String), ([] : List String)))
    | none => ([], [])
  let errors := infoErrs ++ pathsRes.1 ++ verErrs ++ ssRes.1
  let warnings := pathsRes.2.1 ++ serverWarns ++ ssRes.2
  let suggestions := pathsRes.2.2
  { isValid := errors.isEmpty, errors := errors, warnings := warnings,
    suggestions := suggestions }

end Validator

/-- The names `flattenNestedObject` lists as required, characterized
declaratively: a name is required exactly when it is the flattened name
of a leaf reached through object-typed properties, and that leaf's own
name is listed in the `required` list of its *immediate* parent schema —
the requiredness of the ancestors on the path is never consulted. -/
inductive FlatReqName (spec : ParsedApiSpec) : Schema → String → String → String → Prop where
  | leaf : ∀ (s : Schema) (parent pfx pn : String) (ps : Schema),
      (pn, ps) ∈ s.un.properties.getD [] →
      Generator.objCase (Generator.resolvePropSchema spec ps) = false →
      pn ∈ s.un.required.getD [] →
      FlatReqName spec s parent pfx (Generator.flatName parent pfx pn)
  | nest : ∀ (s : Schema) (parent pfx pn : String) (ps : Schema) (nm : String),
      (pn, ps) ∈ s.un.properties.getD [] →
      Generator.objCase (Generator.resolvePropSchema spec ps) = true →
      FlatReqName spec (Generator.resolvePropSchema spec ps) parent (Generator.flatName parent pfx pn) nm →
      FlatReqName spec s parent pfx nm

/-- The required names contributed by one pass of `flattenLoop` over a
list of property entries. -/
def EntryReq (spec : ParsedApiSpec) (parent pfx : String) (reqNames : List String)
    (entries : List (String × Schema)) (nm : String) : Prop :=
  ∃ pn ps, (pn, ps) ∈ entries ∧
    ((Generator.objCase (Generator.resolvePropSchema spec ps) = false ∧ pn ∈ reqNames ∧
        nm = Generator.flatName parent pfx pn)
     ∨ (Generator.objCase (Generator.resolvePropSchema spec ps) = true ∧
        FlatReqName spec (Generator.resolvePropSchema spec ps) parent
          (Generator.flatName parent pfx pn) nm))

/-- A plain string-typed schema. -/
def strSchema : Schema := Schema.mk { type := some "string" }

/-- A registry-free parsed specification. -/
def emptySpec : ParsedApiSpec := {}

/-- Nested object with a required leaf: `{type: object, properties:
{name: string}, required: [name]}`. -/
def c1owner : Schema :=
  Schema.mk { type := some "object", properties := some [("name", strSchema)],
              required := some ["name"] }

/-- Root schema whose `owner` property is NOT required:
`{type: object, properties: {owner: c1owner}}`. -/
def c1root : Schema :=
  Schema.mk { type := some "object", properties := some [("owner", c1owner)] }

/-- Root schema whose `owner` property IS required. -/
def c1rootB : Schema :=
  Schema.mk { type := some "object", properties := some [("owner", c1owner)],
              required := some ["owner"] }

/-- A bare reference node `{$ref: "#/components/schemas/A"}`. -/
def refA : Schema := Schema.mk { ref := some "#/components/schemas/A" }

/-- The self-referential schema `A = {type: object, properties: {self:
$ref A}}`. -/
def objA : Schema :=
  Schema.mk { type := some "object", properties := some [("self", refA)] }

/-- A registry containing the self-referential schema `A`. -/
def specA : ParsedApiSpec := { schemas := [("A", objA)] }

/-- A registry with one schema named `Pet`. -/
def c3spec : ParsedApiSpec := { schemas := [("Pet", strSchema)] }

/-- An allOf member declaring property `a` and requiring it. -/
def c4A : Schema :=
  Schema.mk { properties := some [("a", strSchema)], required := some ["a"] }

/-- An anyOf member declaring property `b`. -/
def c4B : Schema := Schema.mk { properties := some [("b", strSchema)] }

/-- A schema with both `allOf = [c4A]` and `anyOf = [c4B]`. -/
def c4s : Schema := Schema.mk { allOf := some [c4A], anyOf := some [c4B] }

/-- A schema with only `allOf = [c4A]`. -/
def c4w : Schema := Schema.mk { allOf := some [c4A] }

/-- `{type: object, properties: {city: string}}`. -/
def c5home : Schema :=
  Schema.mk { type := some "object", properties := some [("city", strSchema)] }

/-- A root whose nested object property name contains an underscore:
`{type: object, properties: {home_address: c5home}}`. -/
def c5root : Schema :=
  Schema.mk { type := some "object", properties := some [("home_address", c5home)] }

/-- The `GET /pets/{id}` operation of the Pet Store test document. -/
def op6 : Operation :=
  { operationId := some "getPetById",
    parameters := some [{ name := "id", «in» := "path", required := some true,
                          schema := some strSchema }],
    responses := some [("200", { description := some "ok" })] }

/-- The Pet Store test document of spec section 8. -/
def d6 : SwaggerSpec :=
  { openapi := some "3.0.0",
    info := some { title := some "Pet Store", version := some "1.0" },
    paths := some [("/pets/{id}", [("get", op6)])] }

/-- The tools synthesized from the Pet Store document. -/
def c6tools : List McpToolSpec :=
  match Parser.convertToInternalFormat d6 with
  | some sp => Generator.generate 50 sp
  | none => []

/-- The Pet Store document's normalized form. -/
def p6val : ParsedApiSpec := (Parser.convertToInternalFormat d6).getD {}

/-- The single endpoint of the normalized Pet Store document. -/
def e6 : ApiEndpoint := p6val.endpoints.headD { path := "", method := "" }

/-- A header parameter named `X-Trace-Id`. -/
def c7param : Parameter :=
  { name := "X-Trace-Id", «in» := "header", required := some true, schema := some strSchema }

/-- An endpoint declaring one header parameter. -/
def c7ep : ApiEndpoint :=
  { path := "/things", method := "GET", parameters := [c7param],
    responses := some [("200", { description := some "ok" })] }

/-- A parsed specification holding only `c7ep`. -/
def c7spec : ParsedApiSpec := { endpoints := [c7ep] }

/-- A Swagger 2.0 document with `host`, `basePath` and `schemes` but no
`servers` array. -/
def swagger2Doc : SwaggerSpec :=
  { swagger := some "2.0",
    info := some { title := some "S", version := some "1" },
    paths := some [("/a", [("get", { responses := some [("200", { description := some "ok" })] })])],
    host := some "api.example.com", basePath := some "/v2", schemes := some ["https"] }

/-- A document whose `info` object lacks `version`. -/
def spec9 : SwaggerSpec :=
  { swagger := some "2.0",
    info := some { title := some "T" },
    paths := some [("/x", [("get", { responses := some [("200", { description := some "ok" })] })])] }

/-- A member of a list shows the list is not empty. -/
theorem isEmpty_false_of_mem {α : Type} {a : α} {l : List α} (h : a ∈ l) :
    l.isEmpty = false := by
  cases l with
  | nil => cases h
  | cons x t => rfl

/-- On the self-referential registry `A ↦ objA`, flattening `objA` runs
out of any amount of fuel: the original recursion diverges. -/
theorem flatten_objA_none :
    ∀ fuel parent pfx, Generator.flattenNestedObject fuel objA specA parent pfx = none := by
  intro fuel
  induction fuel with
  | zero => intro parent pfx; rfl
  | succ f ih =>
    intro parent pfx
    show Generator.flattenLoop specA parent pfx []
        (fun t nm => Generator.flattenNestedObject f t specA parent nm)
        (fun t nm => Generator.convertSchemaToZod f (some t) (some nm) t.un.description)
        [("self", refA)] [] [] = none
    simp only [Generator.flattenLoop,
      show Generator.resolvePropSchema specA refA = objA from rfl,
      show Generator.objCase objA = true from rfl, if_true]
    rw [ih parent (Generator.flatName parent pfx "self")]

/-- On the self-referential registry, property extraction of `objA`
likewise exhausts any amount of fuel. -/
theorem extract_objA_none :
    ∀ fuel, Generator.extractSchemaProperties fuel objA specA = none := by
  intro fuel
  cases fuel with
  | zero => rfl
  | succ f =>
    show (Generator.extractLoop specA
        (fun t nm => Generator.flattenNestedObject f t specA nm "")
        (fun a b c => Generator.convertSchemaToZod f a b c)
        [("self", refA)] [] []).map
          (fun pr => (pr.1, pr.2 ++ (Generator.resolveSchemaComposition objA specA).un.required.getD [])) = none
    simp only [Generator.extractLoop,
      show jsTruthyStr refA.un.ref = true from rfl,
      show Generator.resolveSchemaReference (refA.un.ref.getD "") specA = some objA from rfl,
      show Generator.shouldFlattenObject objA = true from rfl, if_true]
    rw [flatten_objA_none f "self" ""]
    rfl

/-- C2: FALSIFIED (code bug).  The claim — extraction and flattening
terminate on every registry, even cyclic ones — matches the spec's
stated requirement, but the code has no cycle guard (spec section 9
admits this): on the registry `A = {type: object, properties: {self:
{$ref: #/components/schemas/A}}}`, `extractSchemaProperties` (on `A`
itself or on a reference to it) recurses without bound.  Fuel decreases
exactly once per recursive call of the original code, so a `none` result
at every fuel is precisely divergence. -/
theorem extract_nonterminating_on_self_reference :
    ∀ fuel : Nat, Generator.extractSchemaProperties fuel objA specA = none
      ∧ Generator.extractSchemaProperties fuel refA specA = none := by
  intro fuel
  refine ⟨extract_objA_none fuel, ?_⟩
  cases fuel with
  | zero => rfl
  | succ f =>
    show Generator.extractSchemaProperties f objA specA = none
    exact extract_objA_none f

/-- C3: CONFIRMED.  `resolveSchemaReference` is a total function (never
throws): with the `#/components/schemas/` prefix, and otherwise with the
`#/definitions/` prefix, it returns exactly the registry lookup of the
stripped name (the entry when the name is a key, `none` otherwise), and
on any other reference string it returns `none`. -/
theorem resolveReference_total_lookup :
    ∀ (ref : String) (spec : ParsedApiSpec),
      (startsWithStr ref "#/components/schemas/" = true →
        Generator.resolveSchemaReference ref spec =
          List.lookup (dropChars ref (strLen "#/components/schemas/")) spec.schemas)
      ∧ (startsWithStr ref "#/components/schemas/" = false →
          startsWithStr ref "#/definitions/" = true →
          Generator.resolveSchemaReference ref spec =
            List.lookup (dropChars ref (strLen "#/definitions/")) spec.schemas)
      ∧ (startsWithStr ref "#/components/schemas/" = false →
          startsWithStr ref "#/definitions/" = false →
          Generator.resolveSchemaReference ref spec = none) := by
  intro ref spec
  refine ⟨?_, ?_, ?_⟩
  · intro h; simp [Generator.resolveSchemaReference, h]
  · intro h1 h2; simp [Generator.resolveSchemaReference, h1, h2]
  · intro h1 h2; simp [Generator.resolveSchemaReference, h1, h2]

/-- Witness for C3 at concrete inputs: a resolvable reference in each
prefix style, and an unknown prefix yielding the absent result. -/
theorem resolveReference_total_lookup_witness :
    Generator.resolveSchemaReference "#/components/schemas/Pet" c3spec = some strSchema
      ∧ Generator.resolveSchemaReference "#/definitions/Missing" c3spec = none
      ∧ Generator.resolveSchemaReference "http://elsewhere#/Pet" c3spec = none := by
  refine ⟨?_, ?_, ?_⟩
  · rw [(resolveReference_total_lookup "#/components/schemas/Pet" c3spec).1 (by decide)]; rfl
  · rw [(resolveReference_total_lookup "#/definitions/Missing" c3spec).2.1 (by decide) (by decide)]; rfl
  · exact (resolveReference_total_lookup "http://elsewhere#/Pet" c3spec).2.2 (by decide) (by decide)

/-- C6: CONFIRMED.  On the Pet Store document (one `GET /pets/{id}` with
required path parameter `id` and operationId `getPetById`), synthesis
produces exactly one tool named `get_pet_by_id`, with required list
`["id"]` and an `id` property marked `isPathParam`. -/
theorem petstore_tool_synthesis :
    (Parser.convertToInternalFormat d6).isSome = true
      ∧ c6tools.length = 1
      ∧ c6tools.head?.map McpToolSpec.name = some "get_pet_by_id"
      ∧ c6tools.head?.map (fun t => t.inputSchema.required) = some (some ["id"])
      ∧ c6tools.head?.map (fun t =>
          (List.lookup "id" t.inputSchema.properties).map fun p => p.un.isPathParam)
        = some (some (some true)) :=
  ⟨rfl, rfl, rfl, rfl, rfl⟩

/-- C8: CONFIRMED.  On a schema with no `$ref` and no composition lists,
`resolveSchemaComposition` is the identity (the code merely copies the
node). -/
theorem resolveComposition_identity :
    ∀ (s : Schema) (spec : ParsedApiSpec),
      s.un.ref = none → s.un.allOf = none → s.un.oneOf = none → s.un.anyOf = none →
      Generator.resolveSchemaComposition s spec = s := by
  intro s spec _ hall hone hany
  simp only [Generator.resolveSchemaComposition, hall, hone, hany]

/-- Witness for C8 at a concrete composition-free schema. -/
theorem resolveComposition_identity_witness :
    Generator.resolveSchemaComposition strSchema emptySpec = strSchema :=
  resolveComposition_identity strSchema emptySpec rfl rfl rfl rfl

/-- C9: CONFIRMED.  A document whose `info` object lacks `version`
validates to `isValid = false` with an error containing the substring
`info.version`. -/
theorem validate_missing_version :
    ∀ (spec : SwaggerSpec) (i : Info), spec.info = some i → i.version = none →
      (Validator.validate spec).isValid = false
        ∧ ∃ e ∈ (Validator.validate spec).errors, ∃ a b, e = a ++ "info.version" ++ b := by
  intro spec i hinfo hver
  have hmem : "Missing required field: info.version" ∈ (Validator.validate spec).errors := by
    simp only [Validator.validate, hinfo, hver]
    simp [jsTruthyStr]
  constructor
  · have hproj : (Validator.validate spec).isValid = (Validator.validate spec).errors.isEmpty := rfl
    rw [hproj, isEmpty_false_of_mem hmem]
  · exact ⟨_, hmem, "Missing required field: ", "", by decide⟩

/-- Witness for C9 at a concrete version-less document. -/
theorem validate_missing_version_witness :
    (Validator.validate spec9).isValid = false
      ∧ ∃ e ∈ (Validator.validate spec9).errors, ∃ a b, e = a ++ "info.version" ++ b :=
  validate_missing_version spec9 { title := some "T" } rfl rfl

/-- C10: CONFIRMED.  Tools synthesized from a parsed spec with no
`servers` array always carry the empty base URL — `generateMcpTool` uses
the generator-side `getBaseUrl`, which has no Swagger 2.0 fallback — even
though the parser-side `getBaseUrl` helper does synthesize
`scheme://host/basePath` from the same source document. -/
theorem tool_baseUrl_empty_without_servers :
    (∀ (doc : SwaggerSpec) (fuel : Nat) (ep : ApiEndpoint) (sp : ParsedApiSpec) (t : McpToolSpec),
      doc.servers = none → Parser.convertToInternalFormat doc = some sp →
      Generator.generateMcpTool fuel ep sp = some t → t.baseUrl = "")
    ∧ Parser.getBaseUrl swagger2Doc = "https://api.example.com/v2" := by
  constructor
  · intro doc fuel ep sp t hs hconv htool
    have hsp : sp.servers = none := by
      cases hp : doc.paths with
      | none =>
        rw [Parser.convertToInternalFormat, hp] at hconv
        exact Option.noConfusion hconv
      | some pl =>
        simp only [Parser.convertToInternalFormat, hp, Option.some.injEq] at hconv
        rw [← hconv]
        exact hs
    rw [Generator.generateMcpTool] at htool
    cases hin : Generator.generateInputSchema fuel ep sp with
    | none => rw [hin] at htool; cases htool
    | some inp =>
      rw [hin] at htool
      simp only [Option.some.injEq] at htool
      rw [← htool]
      simp [Generator.getBaseUrl, hsp]
  · rfl

/-- Witness for C10: the Pet Store document has no servers, its one tool
is synthesized, and its base URL is empty. -/
theorem tool_baseUrl_empty_without_servers_witness :
    d6.servers = none
      ∧ (Generator.generateMcpTool 50 e6 p6val).map McpToolSpec.baseUrl = some "" := by
  refine ⟨rfl, ?_⟩
  cases h : Generator.generateMcpTool 50 e6 p6val with
  | none =>
    have hsome : (Generator.generateMcpTool 50 e6 p6val).isSome = true := by rfl
    rw [h] at hsome
    cases hsome
  | some t =>
    have hb := tool_baseUrl_empty_without_servers.1 d6 50 e6 p6val t rfl rfl h
    simp [hb]

/-- Counterexample to C1 as stated.  Part one: in `c1root` the `owner`
property is NOT required, yet its flattened descendant `owner_name`
appears in the extracted required list — ancestors are never consulted.
Part two: in `c1rootB` the flattened-away object property name `owner`
itself appears in the required list (the root's required list is appended
verbatim) although `owner` is no key of the flattened property map. -/
theorem required_not_transitive_counterexample :
    ((Generator.extractSchemaProperties 10 c1root emptySpec).map Prod.snd = some ["owner_name"]
      ∧ "owner" ∉ c1root.un.required.getD [])
    ∧ ((Generator.extractSchemaProperties 10 c1rootB emptySpec).map Prod.snd
        = some ["owner_name", "owner"]
      ∧ (Generator.extractSchemaProperties 10 c1rootB emptySpec).map (fun r => r.1.map Prod.fst)
        = some ["owner_name"]) :=
  ⟨⟨rfl, by decide⟩, ⟨rfl, rfl⟩⟩

/-- Counterexample to C4 as stated.  `c4s` has `allOf = [c4A]` (and `c4A`
declares property `a`), but because `c4s` also carries an `anyOf` list
the anyOf branch resets the merged property map, so the resolved schema
does not contain the allOf member's property `a`. -/
theorem allOf_union_counterexample :
    c4s.un.allOf = some [c4A]
      ∧ (List.lookup "a" ((Generator.resolvePropSchema emptySpec c4A).un.properties.getD [])).isSome
        = true
      ∧ (List.lookup "a" ((Generator.resolveSchemaComposition c4s emptySpec).un.properties.getD [])).isSome
        = false :=
  ⟨rfl, rfl, rfl⟩

/-- Counterexample to C5 as stated.  Flattening `c5root` under root name
`owner` yields the leaf `owner_home_address_city` with `originalPath =
"owner.home.address.city"`: the underscore inside the intermediate
property name `home_address` was also rewritten to a dot, so the recorded
path is not the dotted field path `owner.home_address.city`. -/
theorem originalPath_underscore_counterexample :
    ((Generator.flattenNestedObject 10 c5root emptySpec "owner" "").map fun r =>
        r.1.map fun e => (e.1, e.2.un.originalPath))
      = some [("owner_home_address_city", some "owner.home.address.city")]
    ∧ ("owner.home.address.city" : String) ≠ "owner.home_address.city" :=
  ⟨rfl, by decide⟩

/-- Counterexample to C7 as stated.  The tool synthesized for an endpoint
with a header parameter carries a `headerParams` key, which is not among
the nine fields the data model names for `McpToolSpec`. -/
theorem tool_fields_counterexample :
    ((Generator.generate 10 c7spec).head?.map fun t => t.keys.contains "headerParams")
      = some true
    ∧ "headerParams" ∉ mcpSpecFieldNames :=
  ⟨rfl, by decide⟩

/-- Mapping preserves emptiness of a list. -/
theorem isEmpty_map {α β : Type} (f : α → β) (l : List α) : (l.map f).isEmpty = l.isEmpty := by
  cases l <;> rfl

/-- Every key a tool descriptor can carry is one of the nine data-model
fields or `headerParams`. -/
theorem mcpKeys_subset (t : McpToolSpec) :
    ∀ k ∈ t.keys, k ∈ mcpSpecFieldNames ++ ["headerParams"] := by
  intro k hk
  simp only [McpToolSpec.keys, List.mem_append] at hk
  simp only [mcpSpecFieldNames, List.mem_append]
  rcases hk with (h | h) | h
  · rcases h with h | h
    · simp only [List.mem_cons, List.not_mem_nil, or_false] at h ⊢
      tauto
    · by_cases ha : t.authentication.isSome
      · rw [if_pos ha] at h
        simp only [List.mem_singleton] at h
        subst h
        simp
      · rw [if_neg ha] at h
        cases h
  · by_cases hh : t.headerParams.isSome
    · rw [if_pos hh] at h
      simp only [List.mem_singleton] at h
      subst h
      simp
    · rw [if_neg hh] at h
      cases h
  · simp only [List.mem_cons, List.not_mem_nil, or_false] at h ⊢
    tauto

/-- C7: CORRECTED.  A synthesized tool's keys are exactly among the nine
data-model fields *plus* `headerParams`, and the `headerParams` key is
present exactly when the endpoint declares at least one header parameter;
no resolver-internal state (schema or security-scheme registries) appears
on a descriptor.  The original claim — only the nine named fields — fails
because of `headerParams` (see the counterexample). -/
theorem tool_fields_amended :
    ∀ (fuel : Nat) (ep : ApiEndpoint) (spec : ParsedApiSpec) (tool : McpToolSpec),
      Generator.generateMcpTool fuel ep spec = some tool →
      (∀ k ∈ tool.keys, k ∈ mcpSpecFieldNames ++ ["headerParams"])
        ∧ tool.headerParams.isSome = !((ep.parameters.filter fun p => p.«in» == "header").isEmpty) := by
  intro fuel ep spec tool h
  refine ⟨mcpKeys_subset tool, ?_⟩
  rw [Generator.generateMcpTool] at h
  cases hin : Generator.generateInputSchema fuel ep spec with
  | none => rw [hin] at h; exact Option.noConfusion h
  | some inp =>
    rw [hin] at h
    simp only [Option.some.injEq] at h
    rw [← h]
    show (if ((ep.parameters.filter fun p => p.«in» == "header").map fun p =>
        ({ name := p.name, paramName := dashToUnderscore p.name,
           required := jsTruthyBool p.required,
           description := jsStr p.description ("Header parameter: " ++ p.name) } : HeaderParamMeta)).isEmpty
      then (none : Option (List HeaderParamMeta))
      else some ((ep.parameters.filter fun p => p.«in» == "header").map fun p =>
        ({ name := p.name, paramName := dashToUnderscore p.name,
           required := jsTruthyBool p.required,
           description := jsStr p.description ("Header parameter: " ++ p.name) } : HeaderParamMeta))).isSome
      = !((ep.parameters.filter fun p => p.«in» == "header").isEmpty)
    rw [isEmpty_map]
    cases hb : (ep.parameters.filter fun p => p.«in» == "header").isEmpty <;> simp [hb]

/-- Witness for C7's amended theorem: on the concrete endpoint with one
header parameter the synthesized tool carries a present `headerParams`
key. -/
theorem tool_fields_amended_witness :
    ((Generator.generateMcpTool 10 c7ep c7spec).map fun t => t.headerParams.isSome) = some true := by
  cases h : Generator.generateMcpTool 10 c7ep c7spec with
  | none =>
    have hsome : (Generator.generateMcpTool 10 c7ep c7spec).isSome = true := by rfl
    rw [h] at hsome
    cases hsome
  | some t =>
    have ht := (tool_fields_amended 10 c7ep c7spec t h).2
    show some t.headerParams.isSome = some true
    rw [ht]
    rfl

/-- An element of `setKey l k v` is an element of `l` or the pair `(k, v)`. -/
theorem mem_setKey {α : Type} (l : List (String × α)) (k : String) (v : α) :
    ∀ x ∈ setKey l k v, x ∈ l ∨ x = (k, v) := by
  induction l with
  | nil =>
    intro x hx
    simp only [setKey, List.mem_singleton] at hx
    exact Or.inr hx
  | cons e t ih =>
    intro x hx
    obtain ⟨k', v'⟩ := e
    by_cases h : (k' == k) = true
    · rw [setKey, if_pos h] at hx
      rcases List.mem_cons.mp hx with h1 | h1
      · exact Or.inr h1
      · exact Or.inl (List.mem_cons_of_mem _ h1)
    · rw [setKey, if_neg h] at hx
      rcases List.mem_cons.mp hx with h1 | h1
      · exact Or.inl (h1 ▸ List.mem_cons_self _ _)
      · rcases ih x h1 with h2 | h2
        · exact Or.inl (List.mem_cons_of_mem _ h2)
        · exact Or.inr h2

/-- An element of `objAssign t src` is an element of `t` or of `src`. -/
theorem mem_objAssign {α : Type} (src : List (String × α)) :
    ∀ (t : List (String × α)), ∀ x ∈ objAssign t src, x ∈ t ∨ x ∈ src := by
  induction src with
  | nil => intro t x hx; exact Or.inl hx
  | cons e rest ih =>
    intro t x hx
    have hx' : x ∈ objAssign (setKey t e.1 e.2) rest := hx
    rcases ih (setKey t e.1 e.2) x hx' with h1 | h1
    · rcases mem_setKey t e.1 e.2 x h1 with h2 | h2
      · exact Or.inl h2
      · right
        rw [h2]
        exact List.mem_cons_self _ _
    · exact Or.inr (List.mem_cons_of_mem _ h1)

/-- The shape of every recorded `originalPath`: the flattening root
followed by a dot. -/
theorem flatOriginalPath_shape (parent pfx pn : String) :
    ∃ rest, Generator.flatOriginalPath parent pfx pn = parent ++ "." ++ rest := by
  unfold Generator.flatOriginalPath
  by_cases h : (pfx != "") = true
  · rw [if_pos h]
    exact ⟨underscoreToDot (replaceFirstStr pfx (parent ++ "_") "") ++ "." ++ pn,
      by simp [String.append_assoc]⟩
  · rw [if_neg h]
    exact ⟨pn, rfl⟩

/-- Invariant of the flatten loop: every property it emits carries
`parentObject = parent`, `isFlattened = true` and an `originalPath`
starting with `parent ++ "."`. -/
theorem flattenLoop_meta_inv (spec : ParsedApiSpec) (parent pfx : String)
    (reqNames : List String)
    (recur : Schema → String → Option (List (String × FlatProp) × List String))
    (conv : Schema → String → Option FlatProp)
    (entries : List (String × Schema)) :
    ∀ (accP : List (String × FlatProp)) (accR : List String)
      (props : List (String × FlatProp)) (req : List String),
      (∀ t nm2 props' req', recur t nm2 = some (props', req') →
        ∀ x ∈ props', x.2.un.parentObject = some parent ∧ x.2.un.isFlattened = some true
          ∧ ∃ rest, x.2.un.originalPath = some (parent ++ "." ++ rest)) →
      (∀ x ∈ accP, x.2.un.parentObject = some parent ∧ x.2.un.isFlattened = some true
        ∧ ∃ rest, x.2.un.originalPath = some (parent ++ "." ++ rest)) →
      Generator.flattenLoop spec parent pfx reqNames recur conv entries accP accR
        = some (props, req) →
      ∀ x ∈ props, x.2.un.parentObject = some parent ∧ x.2.un.isFlattened = some true
        ∧ ∃ rest, x.2.un.originalPath = some (parent ++ "." ++ rest) := by
  induction entries with
  | nil =>
    intro accP accR props req _ hacc h
    rw [Generator.flattenLoop] at h
    simp only [Option.some.injEq, Prod.mk.injEq] at h
    rw [← h.1]
    exact hacc
  | cons e rest ih =>
    intro accP accR props req hrec hacc h
    obtain ⟨pn, ps⟩ := e
    rw [Generator.flattenLoop] at h
    split at h
    · -- object case
      split at h
      · exact Option.noConfusion h
      · rename_i np nr hr
        refine ih _ _ props req hrec ?_ h
        intro x hx
        rcases mem_objAssign np accP x hx with h1 | h1
        · exact hacc x h1
        · exact hrec _ _ np nr hr x h1
    · -- leaf case
      split at h
      · exact Option.noConfusion h
      · rename_i fp0 hc
        refine ih _ _ props req hrec ?_ h
        intro x hx
        rcases mem_setKey accP (Generator.flatName parent pfx pn) _ x hx with h1 | h1
        · exact hacc x h1
        · rw [h1]
          obtain ⟨rest, hrest⟩ := flatOriginalPath_shape parent pfx pn
          exact ⟨rfl, rfl, rest, congrArg some hrest⟩

/-- C5: CORRECTED.  Every flattened property records `parentObject` equal
to the flattening root's name, `isFlattened = true`, and an
`originalPath` of the form `parentObject ++ "." ++ rest` (non-empty,
first dot-segment the root).  The original claim's further assertion that
`originalPath` is *exactly* the dotted field path fails: underscores
inside intermediate object property names are also rewritten to dots
(see the counterexample). -/
theorem flatten_metadata_invariant :
    ∀ (fuel : Nat) (s : Schema) (spec : ParsedApiSpec) (parent pfx : String)
      (props : List (String × FlatProp)) (req : List String),
      Generator.flattenNestedObject fuel s spec parent pfx = some (props, req) →
      ∀ x ∈ props, x.2.un.parentObject = some parent ∧ x.2.un.isFlattened = some true
        ∧ ∃ rest, x.2.un.originalPath = some (parent ++ "." ++ rest) := by
  intro fuel
  induction fuel with
  | zero => intro s spec parent pfx props req h; exact Option.noConfusion h
  | succ f ih =>
    intro s spec parent pfx props req h
    rw [Generator.flattenNestedObject] at h
    split at h
    · simp only [Option.some.injEq, Prod.mk.injEq] at h
      rw [← h.1]
      intro x hx
      cases hx
    · rename_i ps hps
      exact flattenLoop_meta_inv spec parent pfx (s.un.required.getD []) _ _ ps [] []
        props req (fun t nm2 props' req' hr => ih t spec parent nm2 props' req' hr)
        (fun x hx => absurd hx (List.not_mem_nil x)) h

/-- Witness for C5's amended theorem at the concrete nested schema: the
single flattened property carries the root as `parentObject` and is
marked `isFlattened`. -/
theorem flatten_metadata_invariant_witness :
    ((Generator.flattenNestedObject 10 c5root emptySpec "owner" "").map fun r => r.1.length)
      = some 1
    ∧ ((Generator.flattenNestedObject 10 c5root emptySpec "owner" "").map fun r =>
        r.1.all fun e => e.2.un.parentObject == some "owner" && e.2.un.isFlattened == some true)
      = some true := by
  refine ⟨rfl, ?_⟩
  cases h : Generator.flattenNestedObject 10 c5root emptySpec "owner" "" with
  | none =>
    have hsome : (Generator.flattenNestedObject 10 c5root emptySpec "owner" "").isSome = true := by
      rfl
    rw [h] at hsome
    cases hsome
  | some pr =>
    show some (pr.1.all fun e => e.2.un.parentObject == some "owner" && e.2.un.isFlattened == some true)
      = some true
    have hinv := flatten_metadata_invariant 10 c5root emptySpec "owner" "" pr.1 pr.2 (by rw [h])
    congr 1
    rw [List.all_eq_true]
    intro e he
    obtain ⟨h1, h2, _⟩ := hinv e he
    rw [h1, h2]
    rfl

/-- `jsOr` is right-neutral in `none`. -/
theorem jsOr_none_right {α : Type} (a : Option α) : jsOr a none = a := by
  cases a <;> rfl

/-- `jsOr` is associative. -/
theorem jsOr_assoc {α : Type} (a b c : Option α) : jsOr (jsOr a b) c = jsOr a (jsOr b c) := by
  cases a <;> rfl

/-- A truthy optional string is a `some`. -/
theorem exists_of_jsTruthyStr (o : Option String) (h : jsTruthyStr o = true) :
    ∃ s, o = some s := by
  cases o with
  | none => cases h
  | some s => exact ⟨s, rfl⟩

/-- Looking up after a `setKey` update. -/
theorem lookup_setKey {α : Type} (k k' : String) (v : α) (t : List (String × α)) :
    List.lookup k (setKey t k' v) = if k == k' then some v else List.lookup k t := by
  induction t with
  | nil =>
    by_cases h : (k == k') = true <;> simp [setKey, List.lookup, h]
  | cons e t ih =>
    obtain ⟨k2, v2⟩ := e
    by_cases h : (k2 == k') = true
    · have hk2 : k2 = k' := eq_of_beq h
      subst hk2
      rw [setKey, if_pos (by simp)]
      by_cases hk : (k == k2) = true <;> simp [List.lookup, hk]
    · rw [setKey, if_neg h]
      by_cases hk : (k == k2) = true
      · have hkk : k = k2 := eq_of_beq hk
        subst hkk
        have hne : (k == k') = false := by
          cases hkk' : (k == k') with
          | false => rfl
          | true => exact absurd hkk' h
        simp [List.lookup, hne]
      · simp [List.lookup, hk, ih]

/-- Looking up in a concatenation. -/
theorem lookup_append {α : Type} (k : String) (l₁ l₂ : List (String × α)) :
    List.lookup k (l₁ ++ l₂) = jsOr (List.lookup k l₁) (List.lookup k l₂) := by
  induction l₁ with
  | nil => simp [List.lookup, jsOr]
  | cons e t ih =>
    obtain ⟨k', v⟩ := e
    by_cases h : (k == k') = true <;> simp [List.lookup, h, ih, jsOr]

/-- Looking up after `Object.assign`: the source's last binding wins,
falling back to the target. -/
theorem lookup_objAssign {α : Type} (k : String) (src : List (String × α)) :
    ∀ t, List.lookup k (objAssign t src) = jsOr (List.lookup k src.reverse) (List.lookup k t) := by
  induction src with
  | nil => intro t; simp [objAssign, jsOr, List.lookup]
  | cons e rest ih =>
    intro t
    obtain ⟨k', v⟩ := e
    have step : objAssign t ((k', v) :: rest) = objAssign (setKey t k' v) rest := rfl
    rw [step, ih (setKey t k' v), List.reverse_cons, lookup_append, jsOr_assoc]
    congr 1
    rw [lookup_setKey]
    by_cases h : (k == k') = true <;> simp [List.lookup, h, jsOr]

/-- `objAssign` splits over a concatenated source. -/
theorem objAssign_append {α : Type} (t : List (String × α)) (s₁ s₂ : List (String × α)) :
    objAssign t (s₁ ++ s₂) = objAssign (objAssign t s₁) s₂ :=
  List.foldl_append _ _ _ _

/-- Projection of a wrapped schema layer. -/
theorem Schema.un_mk (f : SchemaF Schema) : (Schema.mk f).un = f := rfl

/-- Truthiness of the absent string. -/
theorem jsTruthyStr_none : jsTruthyStr none = false := rfl

/-- The properties written by one allOf / anyOf merge step. -/
theorem allOfStep_properties (spec : ParsedApiSpec) (acc m : Schema)
    (P : List (String × Schema)) (h : acc.un.properties = some P) :
    (Generator.allOfStep spec acc m).un.properties
      = some (objAssign P ((Generator.resolvePropSchema spec m).un.properties.getD [])) := by
  unfold Generator.allOfStep
  simp only [Schema.un_mk]
  cases hp : (Generator.resolvePropSchema spec m).un.properties with
  | some ps => simp [h]
  | none => simp [h, objAssign]

/-- The required list written by one allOf / anyOf merge step. -/
theorem allOfStep_required (spec : ParsedApiSpec) (acc m : Schema)
    (R : List String) (h : acc.un.required = some R) :
    (Generator.allOfStep spec acc m).un.required
      = some (R ++ (Generator.resolvePropSchema spec m).un.required.getD []) := by
  unfold Generator.allOfStep
  simp only [Schema.un_mk]
  cases hr : (Generator.resolvePropSchema spec m).un.required with
  | some r => simp [h]
  | none => simp [h]

/-- The type written by one allOf / anyOf merge step. -/
theorem allOfStep_type (spec : ParsedApiSpec) (acc m : Schema) :
    (Generator.allOfStep spec acc m).un.type
      = if (!jsTruthyStr acc.un.type && jsTruthyStr (Generator.resolvePropSchema spec m).un.type) = true
        then (Generator.resolvePropSchema spec m).un.type
        else acc.un.type := by
  unfold Generator.allOfStep
  simp only [Schema.un_mk]

/-- Properties of the full allOf / anyOf fold. -/
theorem foldl_allOfStep_properties (spec : ParsedApiSpec) (l : List Schema) :
    ∀ (acc : Schema) (P : List (String × Schema)), acc.un.properties = some P →
      (l.foldl (Generator.allOfStep spec) acc).un.properties
        = some (objAssign P
            ((l.map fun m => (Generator.resolvePropSchema spec m).un.properties.getD []).flatten)) := by
  induction l with
  | nil => intro acc P h; exact h
  | cons m rest ih =>
    intro acc P h
    rw [List.foldl_cons, ih (Generator.allOfStep spec acc m) _ (allOfStep_properties spec acc m P h),
      List.map_cons, List.flatten_cons, objAssign_append]

/-- Required lists of the full allOf / anyOf fold. -/
theorem foldl_allOfStep_required (spec : ParsedApiSpec) (l : List Schema) :
    ∀ (acc : Schema) (R : List String), acc.un.required = some R →
      (l.foldl (Generator.allOfStep spec) acc).un.required
        = some (R ++ (l.map fun m => (Generator.resolvePropSchema spec m).un.required.getD []).flatten) := by
  induction l with
  | nil => intro acc R h; simpa using h
  | cons m rest ih =>
    intro acc R h
    rw [List.foldl_cons, ih (Generator.allOfStep spec acc m) _ (allOfStep_required spec acc m R h),
      List.map_cons, List.flatten_cons, List.append_assoc]

/-- A truthy accumulator type survives the whole fold. -/
theorem foldl_allOfStep_type_truthy (spec : ParsedApiSpec) (l : List Schema) :
    ∀ acc, jsTruthyStr acc.un.type = true →
      (l.foldl (Generator.allOfStep spec) acc).un.type = acc.un.type := by
  induction l with
  | nil => intro acc _; rfl
  | cons m rest ih =>
    intro acc h
    rw [List.foldl_cons]
    have hstep : (Generator.allOfStep spec acc m).un.type = acc.un.type := by
      rw [allOfStep_type]
      simp [h]
    rw [ih _ (by rw [hstep]; exact h), hstep]

/-- An absent accumulator type is replaced by the first truthy member
type. -/
theorem foldl_allOfStep_type_none (spec : ParsedApiSpec) (l : List Schema) :
    ∀ acc, acc.un.type = none →
      (l.foldl (Generator.allOfStep spec) acc).un.type = Generator.firstTruthyType spec l := by
  induction l with
  | nil => intro acc h; simpa [Generator.firstTruthyType] using h
  | cons m rest ih =>
    intro acc h
    rw [List.foldl_cons]
    by_cases ht : jsTruthyStr (Generator.resolvePropSchema spec m).un.type = true
    · have hstep : (Generator.allOfStep spec acc m).un.type
          = (Generator.resolvePropSchema spec m).un.type := by
        rw [allOfStep_type, h]
        simp [jsTruthyStr_none, ht]
      rw [foldl_allOfStep_type_truthy spec rest _ (by rw [hstep]; exact ht), hstep]
      obtain ⟨str, hs⟩ := exists_of_jsTruthyStr _ ht
      rw [hs] at ht
      simp [Generator.firstTruthyType, List.findSome?_cons, hs, ht]
    · have hf : jsTruthyStr (Generator.resolvePropSchema spec m).un.type = false := by
        cases hx : jsTruthyStr (Generator.resolvePropSchema spec m).un.type with
        | false => rfl
        | true => exact absurd hx ht
      have hstep : (Generator.allOfStep spec acc m).un.type = none := by
        rw [allOfStep_type, hf]
        simp [h]
      rw [ih _ hstep]
      simp [Generator.firstTruthyType, List.findSome?_cons, hf]

/-- C4: CORRECTED.  For a schema whose `allOf` is present *and whose
`oneOf` and `anyOf` are absent*, the resolved properties are the union of
every member's (reference-resolved) properties with later members
overriding earlier ones, the resolved required list is the concatenation
of every member's required list, and an absent outer type is inherited
from the first member declaring a truthy one.  The original claim, which
allowed `oneOf` / `anyOf` alongside `allOf`, fails because the anyOf
branch resets the merged property map (see the counterexample). -/
theorem allOf_resolution :
    ∀ (s : Schema) (spec : ParsedApiSpec) (l : List Schema),
      s.un.allOf = some l → s.un.oneOf = none → s.un.anyOf = none →
      (∀ k, List.lookup k ((Generator.resolveSchemaComposition s spec).un.properties.getD [])
          = List.lookup k
              ((l.map fun m => (Generator.resolvePropSchema spec m).un.properties.getD []).flatten.reverse))
      ∧ (Generator.resolveSchemaComposition s spec).un.required
          = some ((l.map fun m => (Generator.resolvePropSchema spec m).un.required.getD []).flatten)
      ∧ (s.un.type = none →
          (Generator.resolveSchemaComposition s spec).un.type = Generator.firstTruthyType spec l) := by
  intro s spec l hall hone hany
  have hcomp : Generator.resolveSchemaComposition s spec
      = l.foldl (Generator.allOfStep spec)
          (Schema.mk { s.un with properties := some [], required := some [] }) := by
    simp only [Generator.resolveSchemaComposition, hall, hone, hany]
  have hbaseP : (Schema.mk { s.un with properties := some [], required := some [] }).un.properties
      = some ([] : List (String × Schema)) := rfl
  have hbaseR : (Schema.mk { s.un with properties := some [], required := some [] }).un.required
      = some ([] : List String) := rfl
  refine ⟨?_, ?_, ?_⟩
  · intro k
    rw [hcomp, foldl_allOfStep_properties spec l _ [] hbaseP, Option.getD_some, lookup_objAssign]
    simp [List.lookup, jsOr_none_right]
  · rw [hcomp, foldl_allOfStep_required spec l _ [] hbaseR]
    simp
  · intro ht
    rw [hcomp]
    exact foldl_allOfStep_type_none spec l _ (by rw [show (Schema.mk { s.un with properties := some [], required := some [] }).un.type = s.un.type from rfl]; exact ht)

/-- Witness for C4's amended theorem at `allOf = [c4A]`: the resolved
schema requires exactly `a` and maps `a` to the member's string schema. -/
theorem allOf_resolution_witness :
    (Generator.resolveSchemaComposition c4w emptySpec).un.required = some ["a"]
      ∧ List.lookup "a" ((Generator.resolveSchemaComposition c4w emptySpec).un.properties.getD [])
        = some strSchema := by
  have h := allOf_resolution c4w emptySpec [c4A] rfl rfl rfl
  exact ⟨h.2.1, (h.1 "a").trans rfl⟩

/-- Unfolding `EntryReq` over a cons cell. -/
theorem EntryReq_cons (spec : ParsedApiSpec) (parent pfx : String) (reqNames : List String)
    (pn : String) (ps : Schema) (rest : List (String × Schema)) (nm : String) :
    EntryReq spec parent pfx reqNames ((pn, ps) :: rest) nm ↔
      ((Generator.objCase (Generator.resolvePropSchema spec ps) = false ∧ pn ∈ reqNames
          ∧ nm = Generator.flatName parent pfx pn)
        ∨ (Generator.objCase (Generator.resolvePropSchema spec ps) = true ∧
            FlatReqName spec (Generator.resolvePropSchema spec ps) parent
              (Generator.flatName parent pfx pn) nm))
      ∨ EntryReq spec parent pfx reqNames rest nm := by
  constructor
  · rintro ⟨pn', ps', hmem, hbr⟩
    rcases List.mem_cons.mp hmem with heq | hmem'
    · injection heq with h1 h2
      subst h1
      subst h2
      exact Or.inl hbr
    · exact Or.inr ⟨pn', ps', hmem', hbr⟩
  · rintro (hbr | ⟨pn', ps', hmem, hbr⟩)
    · exact ⟨pn, ps, List.mem_cons_self _ _, hbr⟩
    · exact ⟨pn', ps', List.mem_cons_of_mem _ hmem, hbr⟩

/-- The loop-level predicate over a schema's own entries coincides with
the declarative required-name predicate. -/
theorem EntryReq_iff_FlatReqName (spec : ParsedApiSpec) (s : Schema) (parent pfx nm : String) :
    EntryReq spec parent pfx (s.un.required.getD []) (s.un.properties.getD []) nm
      ↔ FlatReqName spec s parent pfx nm := by
  constructor
  · rintro ⟨pn, ps, hmem, hbr⟩
    rcases hbr with ⟨hoc, hreq, rfl⟩ | ⟨hoc, hfr⟩
    · exact FlatReqName.leaf s parent pfx pn ps hmem hoc hreq
    · exact FlatReqName.nest s parent pfx pn ps nm hmem hoc hfr
  · intro hd
    cases hd with
    | leaf _ _ _ pn ps hmem hoc hreq => exact ⟨pn, ps, hmem, Or.inl ⟨hoc, hreq, rfl⟩⟩
    | nest _ _ _ pn ps _ hmem hoc hfr => exact ⟨pn, ps, hmem, Or.inr ⟨hoc, hfr⟩⟩

/-- Membership in the required list produced by the flatten loop:
exactly the accumulator plus the contributions of the walked entries. -/
theorem flattenLoop_required_iff (spec : ParsedApiSpec) (parent pfx : String)
    (reqNames : List String)
    (recur : Schema → String → Option (List (String × FlatProp) × List String))
    (conv : Schema → String → Option FlatProp)
    (hrec : ∀ t nm2 props' req', recur t nm2 = some (props', req') →
      ∀ nm, nm ∈ req' ↔ FlatReqName spec t parent nm2 nm) :
    ∀ (entries : List (String × Schema)) (accP : List (String × FlatProp)) (accR : List String)
      (props : List (String × FlatProp)) (req : List String),
      Generator.flattenLoop spec parent pfx reqNames recur conv entries accP accR
        = some (props, req) →
      ∀ nm, nm ∈ req ↔ nm ∈ accR ∨ EntryReq spec parent pfx reqNames entries nm := by
  intro entries
  induction entries with
  | nil =>
    intro accP accR props req h nm
    rw [Generator.flattenLoop] at h
    simp only [Option.some.injEq, Prod.mk.injEq] at h
    rw [← h.2]
    constructor
    · exact Or.inl
    · rintro (hm | ⟨pn, ps, hmem, _⟩)
      · exact hm
      · cases hmem
  | cons e rest ih =>
    intro accP accR props req h nm
    obtain ⟨pn, ps⟩ := e
    rw [Generator.flattenLoop] at h
    split at h
    · rename_i hoc
      split at h
      · exact Option.noConfusion h
      · rename_i np nr hr
        have hiff := ih (objAssign accP np) (accR ++ nr) props req h nm
        have hnr := hrec _ _ np nr hr nm
        rw [hiff, List.mem_append, EntryReq_cons]
        constructor
        · rintro ((hm | hm) | hm)
          · exact Or.inl hm
          · exact Or.inr (Or.inl (Or.inr ⟨hoc, hnr.mp hm⟩))
          · exact Or.inr (Or.inr hm)
        · rintro (hm | (hbr | hm))
          · exact Or.inl (Or.inl hm)
          · rcases hbr with ⟨hfalse, _⟩ | ⟨_, hfr⟩
            · exact absurd (hfalse.symm.trans hoc) Bool.false_ne_true
            · exact Or.inl (Or.inr (hnr.mpr hfr))
          · exact Or.inr hm
    · rename_i hoc
      split at h
      · exact Option.noConfusion h
      · rename_i fp0 hc
        have hiff := ih _ _ props req h nm
        rw [hiff, List.mem_append, EntryReq_cons]
        have hocf : Generator.objCase (Generator.resolvePropSchema spec ps) = false := by
          cases hx : Generator.objCase (Generator.resolvePropSchema spec ps) with
          | false => rfl
          | true => exact absurd hx hoc
        by_cases hreq : pn ∈ reqNames
        · simp only [if_pos hreq, List.mem_singleton]
          constructor
          · rintro ((hm | hm) | hm)
            · exact Or.inl hm
            · exact Or.inr (Or.inl (Or.inl ⟨hocf, hreq, hm⟩))
            · exact Or.inr (Or.inr hm)
          · rintro (hm | (hbr | hm))
            · exact Or.inl (Or.inl hm)
            · rcases hbr with ⟨_, _, hnm⟩ | ⟨htrue, _⟩
              · exact Or.inl (Or.inr hnm)
              · exact absurd (hocf.symm.trans htrue) Bool.false_ne_true
            · exact Or.inr hm
        · simp only [if_neg hreq]
          constructor
          · rintro ((hm | hm) | hm)
            · exact Or.inl hm
            · cases hm
            · exact Or.inr (Or.inr hm)
          · rintro (hm | (hbr | hm))
            · exact Or.inl (Or.inl hm)
            · rcases hbr with ⟨_, hin, _⟩ | ⟨htrue, _⟩
              · exact absurd hin hreq
              · exact absurd (hocf.symm.trans htrue) Bool.false_ne_true
            · exact Or.inr hm

/-- C1: CORRECTED.  A name is in `flattenNestedObject`'s required output
iff it is the flattened name of a leaf whose own name is listed in the
`required` list of its *immediate* parent schema — the requiredness of
the ancestor objects on the path is never consulted, so the original
transitive-propagation claim fails.  Moreover (see the counterexample)
`extractSchemaProperties` appends the composition-resolved root schema's
own required list verbatim, so names of flattened-away object properties
do appear in the final required list. -/
theorem flatten_required_iff :
    ∀ (fuel : Nat) (s : Schema) (spec : ParsedApiSpec) (parent pfx : String)
      (props : List (String × FlatProp)) (req : List String),
      Generator.flattenNestedObject fuel s spec parent pfx = some (props, req) →
      ∀ nm, nm ∈ req ↔ FlatReqName spec s parent pfx nm := by
  intro fuel
  induction fuel with
  | zero => intro s spec parent pfx props req h; exact Option.noConfusion h
  | succ f ih =>
    intro s spec parent pfx props req h nm
    rw [Generator.flattenNestedObject] at h
    split at h
    · rename_i hps
      simp only [Option.some.injEq, Prod.mk.injEq] at h
      rw [← h.2]
      constructor
      · intro hm; cases hm
      · intro hd
        cases hd with
        | leaf _ _ _ pn ps hmem _ _ => rw [hps] at hmem; cases hmem
        | nest _ _ _ pn ps _ hmem _ _ => rw [hps] at hmem; cases hmem
    · rename_i ps hps
      have hloop := flattenLoop_required_iff spec parent pfx (s.un.required.getD []) _ _
        (fun t nm2 props' req' hr => ih t spec parent nm2 props' req' hr)
        ps [] [] props req h nm
      rw [hloop]
      have hgd : s.un.properties.getD [] = ps := by rw [hps]; rfl
      rw [← hgd]
      constructor
      · rintro (hm | hE)
        · cases hm
        · exact (EntryReq_iff_FlatReqName spec s parent pfx nm).mp hE
      · intro hF
        exact Or.inr ((EntryReq_iff_FlatReqName spec s parent pfx nm).mpr hF)

/-- Witness for C1's amended theorem: in the concrete nested schema the
flattened name `owner_name` is required, and the declarative predicate
derives it from the leaf's immediate parent. -/
theorem flatten_required_iff_witness :
    ((Generator.flattenNestedObject 10 c1owner emptySpec "owner" "").map Prod.snd
        = some ["owner_name"])
      ∧ FlatReqName emptySpec c1owner "owner" "" "owner_name" := by
  refine ⟨rfl, ?_⟩
  cases h : Generator.flattenNestedObject 10 c1owner emptySpec "owner" "" with
  | none =>
    have hsome : (Generator.flattenNestedObject 10 c1owner emptySpec "owner" "").isSome = true := by
      rfl
    rw [h] at hsome
    cases hsome
  | some pr =>
    have hreq : pr.2 = ["owner_name"] := by
      have h2 : (Generator.flattenNestedObject 10 c1owner emptySpec "owner" "").map Prod.snd
          = some ["owner_name"] := rfl
      rw [h] at h2
      exact Option.some.inj h2
    exact (flatten_required_iff 10 c1owner emptySpec "owner" "" pr.1 pr.2 (by rw [h])
      "owner_name").mp (by rw [hreq]; exact List.mem_singleton.mpr rfl)
